import Mathlib

/-!
Verification development for the ring-buffer logger (`index.js`,
`index-optimized.js`, `index-bit-optimized.js`).

The JavaScript sources are shallowly embedded:

* JS values that may contain reference cycles are modelled as rooted
  graphs: a heap (list of object/array nodes) plus a root reference
  (`JValue`).  A reference is either a primitive or a pointer into the
  heap, so cyclic payloads are expressible.
* JS strings are modelled as lists of their UTF-16 code units (`JStr`);
  `String.prototype.length` corresponds to `List.length`.
* Sanitized (tree-shaped) values are `SVal`.
* Fallible steps (`JSON.stringify` throwing on a circular structure,
  stack exhaustion during recursion, `fs` write failures) live in
  `Except JErr`; the `try`/`catch` blocks of the source are the explicit
  recovery matches.  Recursion depth is bounded by explicit fuel; fuel
  exhaustion models a stack overflow, which the same `catch` blocks
  absorb.
* Wall-clock timestamps are modelled by a logical clock that increases
  by one at every `log` call, so "chronological (write) order" is the
  order of the clock stamps.
-/

/-- model of a JavaScript string as the list of its UTF-16 code units -/
abbrev JStr := List Char

/-- primitive (non-reference) JavaScript values; `jfun` and `jsym` stand
for function and symbol values, which JSON cannot represent -/
inductive JPrim where
  | jnull
  | jundef
  | jbool (b : Bool)
  | jnum (n : Int)
  | jstr (s : JStr)
  | jfun
  | jsym
deriving DecidableEq, Repr

/-- reference to a JavaScript value: either a primitive or a pointer to
a heap node (object or array) -/
inductive JRef where
  | prim (p : JPrim)
  | ptr (i : Nat)
deriving DecidableEq, Repr

/-- heap node: a JavaScript array (list of element references) or a
plain object (list of own enumerable string keys with value references) -/
inductive JNode where
  | jarr (elems : List JRef)
  | jobj (fields : List (JStr × JRef))
deriving DecidableEq, Repr

/-- a JavaScript payload value: a heap of nodes plus a root reference;
pointer cycles inside `heap` model cyclic payloads -/
structure JValue where
  heap : List JNode
  root : JRef
deriving DecidableEq, Repr

/-- tree-shaped (acyclic, fully materialised) JavaScript value, the shape
of sanitizer outputs -/
inductive SVal where
  | jnull
  | jundef
  | jbool (b : Bool)
  | jnum (n : Int)
  | jstr (s : JStr)
  | jfun
  | jsym
  | jarr (elems : List SVal)
  | jobj (fields : List (JStr × SVal))

/-- exceptions of the embedded JavaScript fragments -/
inductive JErr where
  | cycleErr
  | stackOverflow
  | ioErr
deriving DecidableEq, Repr

/-- the string "error", the designated error-marker event name -/
def errLit : JStr := "error".data

/-- the three-character ellipsis marker appended to truncated strings -/
def ellipsisMark : JStr := "...".data

/-- string truncation used by every sanitizer variant:
`value.length > 1000 ? value.slice(0, 1000) + '...' : value` -/
def truncateStr (s : JStr) : JStr :=
  if s.length > 1000 then s.take 1000 ++ ellipsisMark else s

/-- the sentinel produced when serialization fails:
`\x7b error: "serialization failed" \x7d` -/
def sentinel : SVal := SVal.jobj [(errLit, SVal.jstr "serialization failed".data)]

/-- monadic map over a list in `Except`, written by explicit structural
recursion so that proofs can unfold it step by step -/
def exMapM (f : α → Except JErr β) : List α → Except JErr (List β)
  | [] => Except.ok []
  | x :: xs => do
    let y ← f x
    let ys ← exMapM f xs
    Except.ok (y :: ys)

/-- JSON.stringify on a primitive, after the truncating replacer of
`_sanitize` in index.js: strings are truncated, `undefined`, functions
and symbols have no representation (`none` = omitted) -/
def sPrim : JPrim → Option SVal
  | JPrim.jnull => some SVal.jnull
  | JPrim.jundef => none
  | JPrim.jbool b => some (SVal.jbool b)
  | JPrim.jnum n => some (SVal.jnum n)
  | JPrim.jstr s => some (SVal.jstr (truncateStr s))
  | JPrim.jfun => none
  | JPrim.jsym => none

/-- core of `JSON.stringify(data, replacer)` from `_sanitize` in
index.js, as a value-to-value function (composed with the subsequent
`JSON.parse`): recursive serialization with identity-based cycle
detection on the active path (`path`), a truncating replacer for
strings, omission of unrepresentable values from objects and `null`
substitution inside arrays.  A reference already on the active path
raises `cycleErr` (JSON.stringify throws a TypeError on circular
structures); exhausted fuel raises `stackOverflow` (deep recursion
overflows the JS stack).  Both are caught by `_sanitize`'s `catch`. -/
def strRef (heap : List JNode) : Nat → List Nat → JRef → Except JErr (Option SVal)
  | 0, _, _ => Except.error JErr.stackOverflow
  | _ + 1, _, JRef.prim p => Except.ok (sPrim p)
  | fuel + 1, path, JRef.ptr i =>
    if i ∈ path then Except.error JErr.cycleErr
    else
      match heap.get? i with
      | none => Except.ok none
      | some (JNode.jarr es) =>
        (exMapM (fun r => strRef heap fuel (i :: path) r) es).map
          (fun vs => some (SVal.jarr (vs.map (fun v => v.getD SVal.jnull))))
      | some (JNode.jobj fs) =>
        (exMapM (fun kv => (strRef heap fuel (i :: path) kv.2).map (fun v => (kv.1, v))) fs).map
          (fun kvs => some (SVal.jobj (kvs.filterMap (fun kv => kv.2.map (fun v => (kv.1, v))))))

/-- JSON round-trip of the whole payload, fuel set beyond the heap size
so that only genuine cycles (or runaway depth) raise -/
def strTop (d : JValue) : Except JErr (Option SVal) :=
  strRef d.heap (d.heap.length + 1) [] d.root

/-- test for `data === null || data === undefined` at the root -/
def isNullish (r : JRef) : Prop :=
  r = JRef.prim JPrim.jnull ∨ r = JRef.prim JPrim.jundef

instance (r : JRef) : Decidable (isNullish r) := by
  unfold isNullish; infer_instance

/-- `_sanitize` of index.js in `Except` form: the `try` block is the
JSON round-trip, a thrown error is caught and downgraded to the
sentinel.  A root that serializes to `undefined` (function, symbol)
makes `JSON.parse(undefined)` throw a SyntaxError inside the same
`try`, which the `catch` also converts to the sentinel. -/
def sanitizeE (d : JValue) : Except JErr SVal :=
  if isNullish d.root then Except.ok (SVal.jobj [])
  else
    match strTop d with
    | Except.ok (some v) => Except.ok v
    | Except.ok none => Except.ok sentinel
    | Except.error _ => Except.ok sentinel

/-- `_sanitize` of index.js as the total function it is: null/undefined
become the empty object, any serialization failure becomes the sentinel -/
def jsSanitize (d : JValue) : SVal :=
  match sanitizeE d with
  | Except.ok v => v
  | Except.error _ => sentinel

example : jsSanitize ⟨[], JRef.prim (JPrim.jnum 3)⟩ = SVal.jnum 3 := rfl
example : jsSanitize ⟨[], JRef.prim JPrim.jnull⟩ = SVal.jobj [] := rfl
example :
    jsSanitize ⟨[JNode.jobj [("self".data, JRef.ptr 0)]], JRef.ptr 0⟩ = sentinel := rfl

/-- primitive handling of `_fastClone` in index-optimized.js: long
strings are truncated, every other non-object value (including
`undefined`, functions and symbols) is returned unchanged -/
def fastPrim : JPrim → SVal
  | JPrim.jnull => SVal.jnull
  | JPrim.jundef => SVal.jundef
  | JPrim.jbool b => SVal.jbool b
  | JPrim.jnum n => SVal.jnum n
  | JPrim.jstr s => SVal.jstr (truncateStr s)
  | JPrim.jfun => SVal.jfun
  | JPrim.jsym => SVal.jsym

/-- the subtree substitute `\x7b error: "circular reference" \x7d` that
`_fastClone` returns for a reference already in its `seen` set -/
def circStub : SVal := SVal.jobj [(errLit, SVal.jstr "circular reference".data)]

/-- `_fastClone` of index-optimized.js: a deep clone with identity-based
cycle tracking.  The `seen` set is added to before and deleted from
after visiting each object, so it always equals the active recursion
path (`path` here).  A cyclic reference is replaced by `circStub`
without raising; exhausted fuel models the JS stack overflowing, which
`_fastSanitize`'s `catch` absorbs. -/
def fastCloneE (heap : List JNode) : Nat → List Nat → JRef → Except JErr SVal
  | 0, _, _ => Except.error JErr.stackOverflow
  | _ + 1, _, JRef.prim p => Except.ok (fastPrim p)
  | fuel + 1, path, JRef.ptr i =>
    if i ∈ path then Except.ok circStub
    else
      match heap.get? i with
      | none => Except.ok SVal.jundef
      | some (JNode.jarr es) =>
        (exMapM (fun r => fastCloneE heap fuel (i :: path) r) es).map SVal.jarr
      | some (JNode.jobj fs) =>
        (exMapM (fun kv => (fastCloneE heap fuel (i :: path) kv.2).map (fun v => (kv.1, v))) fs).map
          SVal.jobj

/-- test for a non-object root, JS `typeof data !== 'object'` (with
null already handled): true exactly on primitives other than null -/
def isNonObjectRoot (r : JRef) : Prop :=
  ∃ p, r = JRef.prim p ∧ p ≠ JPrim.jnull

instance (r : JRef) : Decidable (isNonObjectRoot r) := by
  unfold isNonObjectRoot
  cases r with
  | prim p => exact decidable_of_iff (p ≠ JPrim.jnull) (by simp)
  | ptr i => exact Decidable.isFalse (by simp)

/-- `_fastSanitize` of index-optimized.js: null/undefined become the
empty object; any other non-object payload is returned unchanged (note:
a top-level string is NOT truncated); objects are `_fastClone`d inside
a `try` whose `catch` yields the sentinel -/
def fastSanitize (d : JValue) : SVal :=
  if isNullish d.root then SVal.jobj []
  else if isNonObjectRoot d.root then
    match d.root with
    | JRef.prim p => fastPrim' p
    | JRef.ptr _ => SVal.jundef
  else
    match fastCloneE d.heap (d.heap.length + 1) [] d.root with
    | Except.ok v => v
    | Except.error _ => sentinel
where
  /-- identity embedding of a primitive returned untouched by the early
  `typeof data !== 'object'` exit of `_fastSanitize` -/
  fastPrim' : JPrim → SVal
    | JPrim.jnull => SVal.jnull
    | JPrim.jundef => SVal.jundef
    | JPrim.jbool b => SVal.jbool b
    | JPrim.jnum n => SVal.jnum n
    | JPrim.jstr s => SVal.jstr s
    | JPrim.jfun => SVal.jfun
    | JPrim.jsym => SVal.jsym

example :
    fastSanitize ⟨[JNode.jobj [("name".data, JRef.prim (JPrim.jstr "test".data)),
                               ("self".data, JRef.ptr 0)]], JRef.ptr 0⟩ =
      SVal.jobj [("name".data, SVal.jstr "test".data), ("self".data, circStub)] := rfl

/-- per-slot value transform of `_ultraSanitize`'s shallow branches in
index-bit-optimized.js: a direct long-string value is truncated, every
other value (including a nested object or array) is copied by reference -/
def ultraSlot : JRef → JRef
  | JRef.prim (JPrim.jstr s) => JRef.prim (JPrim.jstr (truncateStr s))
  | r => r

/-- `_ultraSanitize` of index-bit-optimized.js, producing a JS value
(graph): null/undefined become a fresh empty object; a non-object
payload is truncated if it is a long string and otherwise returned
unchanged; a plain object (`data.constructor === Object`) gets a fresh
SHALLOW copy whose field values are the original references after
`ultraSlot`; an array is mapped elementwise the same way.  Every node
of this model is a plain object or array, so the JSON-round-trip
fallback branch for exotic objects is unreachable here. -/
def ultraSanitizeG (d : JValue) : JValue :=
  if isNullish d.root then ⟨d.heap ++ [JNode.jobj []], JRef.ptr d.heap.length⟩
  else
    match d.root with
    | JRef.prim p => ⟨d.heap, ultraSlot (JRef.prim p)⟩
    | JRef.ptr i =>
      match d.heap.get? i with
      | some (JNode.jobj fs) =>
        ⟨d.heap ++ [JNode.jobj (fs.map (fun kv => (kv.1, ultraSlot kv.2)))],
          JRef.ptr d.heap.length⟩
      | some (JNode.jarr es) =>
        ⟨d.heap ++ [JNode.jarr (es.map ultraSlot)], JRef.ptr d.heap.length⟩
      | none => d

/-- identity embedding of a primitive as a tree value -/
def primSVal : JPrim → SVal
  | JPrim.jnull => SVal.jnull
  | JPrim.jundef => SVal.jundef
  | JPrim.jbool b => SVal.jbool b
  | JPrim.jnum n => SVal.jnum n
  | JPrim.jstr s => SVal.jstr s
  | JPrim.jfun => SVal.jfun
  | JPrim.jsym => SVal.jsym

/-- observation of a JS value as a tree, used to compare the aliasing
output of `_ultraSanitize` with tree-shaped sanitizer outputs: it reads
the value structurally, exactly as the logger's later JSON serialization
or a structural test assertion would.  Cycles and dangling references
observe as the `jundef` marker; the concrete inputs compared below are
acyclic, so the marker never arises there. -/
def observeRef (heap : List JNode) : Nat → List Nat → JRef → SVal
  | 0, _, _ => SVal.jundef
  | _ + 1, _, JRef.prim p => primSVal p
  | fuel + 1, path, JRef.ptr i =>
    if i ∈ path then SVal.jundef
    else
      match heap.get? i with
      | none => SVal.jundef
      | some (JNode.jarr es) => SVal.jarr (es.map (fun r => observeRef heap fuel (i :: path) r))
      | some (JNode.jobj fs) =>
        SVal.jobj (fs.map (fun kv => (kv.1, observeRef heap fuel (i :: path) kv.2)))

/-- observation of a rooted JS value as a tree -/
def observe (d : JValue) : SVal :=
  observeRef d.heap (d.heap.length + 1) [] d.root

example :
    observe (ultraSanitizeG ⟨[JNode.jobj [("a".data, JRef.prim (JPrim.jnum 1))]], JRef.ptr 0⟩) =
      SVal.jobj [("a".data, SVal.jnum 1)] := rfl

/-- one logged event, as built at the top of `log` in index.js.  `ts`
is the logical write clock standing in for `new Date().toISOString()`:
later writes get strictly larger stamps. -/
structure Entry where
  ts : Nat
  flushId : Nat
  event : Option JStr
  data : SVal

/-- reason attached to a flush -/
inductive FlushReason where
  | preError
  | postError
deriving DecidableEq, Repr

/-- record of one `_flush` execution: the artifact's reason, the
`flushId` it carries, its `events` array, and whether the durable write
succeeded (`persisted = false` models a caught I/O failure, in which
case no file lands but everything else is identical) -/
structure FlushRec where
  reason : FlushReason
  flushId : Nat
  events : List Entry
  persisted : Bool

/-- state of one `RingBufferLogger` instance (index.js constructor).
`index` is `Option Nat` because JS `(i + 1) % 0` is `NaN` when
`capacity` is `0`: `none` models a `NaN` cursor.  `errorLoggedAt` is
`none` for `null` and `some j` for a stored cursor value (itself
possibly `NaN`). -/
structure LoggerState where
  capacity : Nat
  buffer : List (Option Entry)
  index : Option Nat
  flushId : Nat
  errorSeen : Bool
  errorLoggedAt : Option (Option Nat)
  flushing : Bool
  clock : Nat

/-- freshly constructed logger of the given capacity -/
def initLogger (capacity : Nat) : LoggerState :=
  { capacity := capacity
    buffer := List.replicate capacity none
    index := some 0
    flushId := 0
    errorSeen := false
    errorLoggedAt := none
    flushing := false
    clock := 0 }

/-- `this.buffer[this.index] = entry`: storing at a numeric cursor sets
that slot (`List.set` ignores an out-of-range index, matching the fact
that an out-of-bounds JS element is invisible to `_snapshot`'s loop); a
`NaN` cursor sets a non-index property, invisible to every slot read -/
def bufWrite (buffer : List (Option Entry)) (index : Option Nat) (e : Entry) :
    List (Option Entry) :=
  match index with
  | some i => buffer.set i (some e)
  | none => buffer

/-- `this.index = (this.index + 1) % this.capacity`: JS yields `NaN`
when the capacity is `0` or the cursor is already `NaN` -/
def advanceIdx (capacity : Nat) (index : Option Nat) : Option Nat :=
  match index with
  | some i => if capacity = 0 then none else some ((i + 1) % capacity)
  | none => none

/-- `this.index === this.errorLoggedAt`: strict equality, false when
`errorLoggedAt` is `null`, and false whenever either side is `NaN`
(`NaN === NaN` is false in JS) -/
def idxEq (index : Option Nat) (errorLoggedAt : Option (Option Nat)) : Bool :=
  match index, errorLoggedAt with
  | some i, some (some j) => i == j
  | _, _ => false

/-- `_snapshot` of index.js: walk `capacity` steps forward from the
cursor, keeping occupied slots in encounter order.  With capacity `0`
the loop body never runs; a `NaN` cursor only occurs with capacity `0`,
so the `none` branch also reads no slot. -/
def jsSnapshot (s : LoggerState) : List Entry :=
  match s.index with
  | some i =>
    ((List.range s.capacity).map (fun k => s.buffer.getD ((i + k) % s.capacity) none)).filterMap id
  | none => []

/-- `getCurrentBuffer()` of index.js -/
def getCurrentBuffer (s : LoggerState) : List Entry :=
  jsSnapshot s

/-- the `fs.writeSync`/`fs.fsyncSync` part of `_flush`: raises `ioErr`
when the durable write fails (missing directory, disk full, ...) -/
def writeArtifact (ioOk : Bool) : Except JErr Unit :=
  if ioOk then Except.ok () else Except.error JErr.ioErr

/-- `_flush(reason)` of index.js: dropped while another flush is in
flight; otherwise the `try` block snapshots and writes the artifact,
the `catch` absorbs an I/O failure, and the `finally` resets `flushing`
and clears the buffer (`this.buffer.fill(undefined)`, which keeps the
length and does not touch the cursor) in BOTH outcomes.  `ioOk` is
whether the durable write succeeds. -/
def flushRun (ioOk : Bool) (reason : FlushReason) (s : LoggerState) :
    LoggerState × Option FlushRec :=
  if s.flushing then (s, none)
  else
    let events := jsSnapshot s
    let cleared := { s with buffer := s.buffer.map (fun _ => none) }
    match writeArtifact ioOk with
    | Except.ok _ =>
      (cleared, some { reason := reason, flushId := s.flushId, events := events, persisted := true })
    | Except.error _ =>
      (cleared, some { reason := reason, flushId := s.flushId, events := events, persisted := false })

/-- the entry built at the top of `log(event, data)` in index.js:
`ts` stamp, current `flushId`, event name, sanitized payload -/
def entryOf (s : LoggerState) (event : Option JStr) (sv : SVal) : Entry :=
  { ts := s.clock, flushId := s.flushId, event := event, data := sv }

/-- logger state right after `this.buffer[this.index] = entry`, with
the logical clock ticked for the stamp just consumed -/
def afterWrite (s : LoggerState) (event : Option JStr) (sv : SVal) : LoggerState :=
  { s with buffer := bufWrite s.buffer s.index (entryOf s event sv), clock := s.clock + 1 }

/-- first conditional of `log` in index.js: on an error-marker event
with the machine Idle, flush `pre-error-context`, bump `flushId`, set
`errorSeen` and record `errorLoggedAt` from the cursor BEFORE it
advances -/
def logPre (ioOk : Bool) (s1 : LoggerState) (event : Option JStr) :
    LoggerState × Option FlushRec :=
  if event = some errLit ∧ s1.errorSeen = false then
    let fr := flushRun ioOk FlushReason.preError s1
    ({ fr.1 with flushId := fr.1.flushId + 1, errorSeen := true,
                 errorLoggedAt := some s1.index }, fr.2)
  else (s1, none)

/-- cursor advance `this.index = (this.index + 1) % this.capacity` -/
def logAdvance (t : LoggerState) : LoggerState :=
  { t with index := advanceIdx t.capacity t.index }

/-- second conditional of `log` in index.js: with the machine Armed and
the advanced cursor strictly equal to `errorLoggedAt`, flush
`post-error-context`, bump `flushId` and disarm -/
def logPost (ioOk : Bool) (s3 : LoggerState) : LoggerState × Option FlushRec :=
  if s3.errorSeen = true ∧ idxEq s3.index s3.errorLoggedAt = true then
    let fr := flushRun ioOk FlushReason.postError s3
    ({ fr.1 with flushId := fr.1.flushId + 1, errorSeen := false,
                 errorLoggedAt := none }, fr.2)
  else (s3, none)

/-- body of `log(event, data)` from index.js, parameterised by the
already-sanitized payload: build the entry, store it at the cursor,
fire the pre-error flush at an Idle-to-Armed transition, advance the
cursor, and fire the post-error flush when the advanced cursor equals
`errorLoggedAt`.  Returns the new state plus the flushes fired by this
call, in order. -/
def logCore (ioOk : Bool) (s : LoggerState) (event : Option JStr) (sv : SVal) :
    LoggerState × List FlushRec :=
  let step1 := logPre ioOk (afterWrite s event sv) event
  let step2 := logPost ioOk (logAdvance step1.1)
  (step2.1, step1.2.toList ++ step2.2.toList)

/-- `log(event, data)` of index.js as a total function -/
def logStep (ioOk : Bool) (s : LoggerState) (event : Option JStr) (d : JValue) :
    LoggerState × List FlushRec :=
  logCore ioOk s event (jsSanitize d)

/-- `log(event, data)` with the sanitizer's fallibility threaded
through `Except`: if `_sanitize` let an exception escape, `log` would
raise it to the caller -/
def logE (ioOk : Bool) (s : LoggerState) (event : Option JStr) (d : JValue) :
    Except JErr (LoggerState × List FlushRec) := do
  let sv ← sanitizeE d
  Except.ok (logCore ioOk s event sv)

/-- run a sequence of `log` calls, collecting all flush records -/
def runLogs (ioOk : Bool) (s : LoggerState) :
    List (Option JStr × JValue) → LoggerState × List FlushRec
  | [] => (s, [])
  | c :: cs =>
    let r := logStep ioOk s c.1 c.2
    let r' := runLogs ioOk r.1 cs
    (r'.1, r.2 ++ r'.2)

/-- run a sequence of `log` calls in `Except` form -/
def runLogsE (ioOk : Bool) (s : LoggerState) :
    List (Option JStr × JValue) → Except JErr (LoggerState × List FlushRec)
  | [] => Except.ok (s, [])
  | c :: cs => do
    let r ← logE ioOk s c.1 c.2
    let r' ← runLogsE ioOk r.1 cs
    Except.ok (r'.1, r.2 ++ r'.2)

example :
    ((logStep true (initLogger 1) (some errLit)
        ⟨[JNode.jobj [("x".data, JRef.prim (JPrim.jnum 1))]], JRef.ptr 0⟩).2.map
      (fun r => r.reason)) = [FlushReason.preError, FlushReason.postError] := rfl

theorem sanitizeE_ok (d : JValue) : sanitizeE d = Except.ok (jsSanitize d) := by
  by_cases h : isNullish d.root
  · simp [sanitizeE, jsSanitize, h]
  · cases hs : strTop d with
    | ok o => cases o <;> simp [sanitizeE, jsSanitize, h, hs]
    | error e => simp [sanitizeE, jsSanitize, h, hs]

theorem logE_ok (ioOk : Bool) (s : LoggerState) (event : Option JStr) (d : JValue) :
    logE ioOk s event d = Except.ok (logStep ioOk s event d) := by
  unfold logE logStep
  rw [sanitizeE_ok]
  rfl

theorem runLogsE_ok (ioOk : Bool) (s : LoggerState) (calls : List (Option JStr × JValue)) :
    runLogsE ioOk s calls = Except.ok (runLogs ioOk s calls) := by
  induction calls generalizing s with
  | nil => rfl
  | cons c cs ih =>
    unfold runLogsE runLogs
    rw [logE_ok]
    show runLogsE ioOk _ cs >>= _ = _
    rw [ih]
    rfl

/-- C8: `log(eventName, payload)` never raises to its caller: for every
event name (including null) and every payload (including cyclic values
and values the serializer cannot represent), the sanitizer is total
(its internal catch absorbs every raised error) and `log` returns
normally, with flush I/O failures likewise absorbed (`ioOk` ranges over
both write outcomes). -/
theorem log_never_raises (ioOk : Bool) (s : LoggerState) (event : Option JStr) (d : JValue) :
    (∃ v, sanitizeE d = Except.ok v) ∧ ∃ r, logE ioOk s event d = Except.ok r :=
  ⟨⟨jsSanitize d, sanitizeE_ok d⟩, ⟨logStep ioOk s event d, logE_ok ioOk s event d⟩⟩

theorem filterMap_id_length (l : List (Option α)) :
    (l.filterMap id).length = l.countP (fun o => o.isSome) := by
  induction l with
  | nil => rfl
  | cons x xs ih => cases x <;> simp [List.countP_cons, ih]

theorem jsSnapshot_eq_rotate (s : LoggerState) (i : Nat) (hi : s.index = some i)
    (hlen : s.buffer.length = s.capacity) (hcap : 0 < s.capacity) :
    jsSnapshot s = (s.buffer.rotate i).filterMap id := by
  have hmain : (List.range s.capacity).map (fun k => s.buffer.getD ((i + k) % s.capacity) none)
      = s.buffer.rotate i := by
    apply List.ext_getElem
    · simp [hlen]
    · intro k h1 h2
      simp only [List.getElem_map, List.getElem_range]
      have hmod : (i + k) % s.capacity < s.buffer.length := by
        rw [hlen]; exact Nat.mod_lt _ hcap
      rw [List.getD_eq_getElem?_getD, List.getElem?_eq_getElem hmod]
      rw [List.getElem_rotate]
      simp [hlen, Nat.add_comm i k]
  unfold jsSnapshot
  rw [hi]
  show ((List.range s.capacity).map
      (fun k => s.buffer.getD ((i + k) % s.capacity) none)).filterMap id = _
  rw [hmain]

theorem jsSnapshot_all_none (s : LoggerState) (h : ∀ x ∈ s.buffer, x = none) :
    jsSnapshot s = [] := by
  unfold jsSnapshot
  cases hi : s.index with
  | none => rfl
  | some i =>
    rw [List.filterMap_eq_nil_iff]
    intro o ho
    simp only [List.mem_map, List.mem_range] at ho
    obtain ⟨k, _, hk⟩ := ho
    rw [List.getD_eq_getElem?_getD] at hk
    by_cases hb : (i + k) % s.capacity < s.buffer.length
    · rw [List.getElem?_eq_getElem hb] at hk
      have := h _ (List.getElem_mem hb)
      simp [← hk, this]
    · rw [List.getElem?_eq_none (Nat.le_of_not_lt hb)] at hk
      simp [← hk]

theorem jsSnapshot_capacity_zero (s : LoggerState) (h : s.capacity = 0) :
    jsSnapshot s = [] := by
  unfold jsSnapshot
  cases s.index <;> simp [h]

/-- C7: after every flush that actually runs (one not dropped by the
single-flight guard), the ring buffer is cleared before `_flush`
returns — `getCurrentBuffer()` is empty immediately afterwards — the
clear leaves the cursor `index` unchanged, and the resulting state is
the same whether the artifact write succeeded or failed. -/
theorem flush_clears_buffer_keeps_cursor (ioOk : Bool) (reason : FlushReason)
    (s : LoggerState) (h : s.flushing = false) :
    getCurrentBuffer (flushRun ioOk reason s).1 = [] ∧
    (flushRun ioOk reason s).1.index = s.index ∧
    (flushRun true reason s).1 = (flushRun false reason s).1 := by
  have hclear : ∀ (b : Bool),
      (flushRun b reason s).1 = { s with buffer := s.buffer.map (fun _ => none) } := by
    intro b
    cases b <;> simp [flushRun, writeArtifact, h]
  refine ⟨?_, ?_, ?_⟩
  · rw [getCurrentBuffer, hclear]
    apply jsSnapshot_all_none
    intro x hx
    simp only [List.mem_map] at hx
    obtain ⟨y, _, hy⟩ := hx
    exact hy.symm
  · rw [hclear]
  · rw [hclear, hclear]

/-- concrete instance discharging the hypothesis of
`flush_clears_buffer_keeps_cursor` on a logger that has just stored two
entries -/
theorem flush_clears_buffer_keeps_cursor_witness :
    (runLogs true (initLogger 3) [(some "info".data, ⟨[], JRef.prim (JPrim.jnum 1)⟩),
      (some "info".data, ⟨[], JRef.prim (JPrim.jnum 2)⟩)]).1.flushing = false ∧
    getCurrentBuffer (flushRun true FlushReason.preError
      (runLogs true (initLogger 3) [(some "info".data, ⟨[], JRef.prim (JPrim.jnum 1)⟩),
        (some "info".data, ⟨[], JRef.prim (JPrim.jnum 2)⟩)]).1).1 = [] := by
  refine ⟨rfl, ?_⟩
  exact (flush_clears_buffer_keeps_cursor true FlushReason.preError _ rfl).1

/-- the payload of spec Scenario B, the object with field x = 1 -/
def payB : JValue := ⟨[JNode.jobj [("x".data, JRef.prim (JPrim.jnum 1))]], JRef.ptr 0⟩

/-- C1 counterexample: on a capacity-1 logger, the single call
`log("error", the x-equals-1 object)` fires BOTH the pre-error-context
flush and the post-error-context flush within that same call (the
cursor advance `(0 + 1) % 1 = 0` immediately re-equals
`errorLoggedAt`), and the very next `log("info", ...)` call fires no
flush at all — contradicting the claim that the post-error flush fires
on the next call rather than within the `log("error", ...)` call. -/
theorem capacity_one_both_flushes_same_call_cex :
    ((logStep true (initLogger 1) (some errLit) payB).2.map (fun r => r.reason)
      = [FlushReason.preError, FlushReason.postError]) ∧
    ((logStep true (logStep true (initLogger 1) (some errLit) payB).1
        (some "info".data) ⟨[], JRef.prim (JPrim.jnum 2)⟩).2.map (fun r => r.reason) = []) := by
  exact ⟨rfl, rfl⟩

/-- C1 as amended: on a capacity-1 logger, `log("error", p)` fires the
pre-error-context flush (whose artifact holds exactly the error entry)
AND the post-error-context flush within that same call, because the
advanced cursor immediately re-equals `errorLoggedAt`; the post-error
artifact is empty (the pre-flush already cleared the single slot), and
the next non-error `log` call fires no flush — the window has already
closed. -/
theorem capacity_one_both_flushes_same_call (ioOk : Bool) (d d2 : JValue)
    (n2 : Option JStr) (h : n2 ≠ some errLit) :
    ((logStep ioOk (initLogger 1) (some errLit) d).2.map (fun r => r.reason)
      = [FlushReason.preError, FlushReason.postError]) ∧
    (∀ r ∈ (logStep ioOk (initLogger 1) (some errLit) d).2,
      r.reason = FlushReason.preError → r.events.map (fun e => e.event) = [some errLit]) ∧
    (∀ r ∈ (logStep ioOk (initLogger 1) (some errLit) d).2,
      r.reason = FlushReason.postError → r.events = []) ∧
    ((logStep ioOk (logStep ioOk (initLogger 1) (some errLit) d).1 n2 d2).2 = []) := by
  have h1 : logStep ioOk (initLogger 1) (some errLit) d =
      ({ capacity := 1, buffer := [none], index := some 0, flushId := 2,
         errorSeen := false, errorLoggedAt := none, flushing := false, clock := 1 },
       [{ reason := FlushReason.preError, flushId := 0,
          events := [{ ts := 0, flushId := 0, event := some errLit, data := jsSanitize d }],
          persisted := ioOk },
        { reason := FlushReason.postError, flushId := 1, events := [], persisted := ioOk }]) := by
    cases ioOk <;>
      (unfold logStep logCore logPre logAdvance logPost afterWrite entryOf
       simp [flushRun, writeArtifact, jsSnapshot, bufWrite, advanceIdx, idxEq, initLogger,
             List.range_succ])
  refine ⟨?_, ?_, ?_, ?_⟩
  · rw [h1]
    rfl
  · intro r hr hpre
    rw [h1] at hr
    simp only [List.mem_cons, List.not_mem_nil, or_false] at hr
    rcases hr with hr | hr
    · subst hr; rfl
    · subst hr; simp at hpre
  · intro r hr hpost
    rw [h1] at hr
    simp only [List.mem_cons, List.not_mem_nil, or_false] at hr
    rcases hr with hr | hr
    · subst hr; simp at hpost
    · subst hr; rfl
  · rw [h1]
    unfold logStep logCore logPre logAdvance logPost afterWrite entryOf
    simp [h, flushRun, writeArtifact, jsSnapshot, bufWrite, advanceIdx, idxEq]

/-- concrete instance discharging the hypothesis of
`capacity_one_both_flushes_same_call` -/
theorem capacity_one_both_flushes_same_call_witness :
    (some "info".data : Option JStr) ≠ some errLit ∧
    ((logStep true (initLogger 1) (some errLit) payB).2.map (fun r => r.reason)
      = [FlushReason.preError, FlushReason.postError]) :=
  ⟨by decide,
   (capacity_one_both_flushes_same_call true payB ⟨[], JRef.prim (JPrim.jnum 2)⟩
      (some "info".data) (by decide)).1⟩



theorem logPre_skip (ioOk : Bool) (s1 : LoggerState) (n : Option JStr)
    (h : ¬(n = some errLit ∧ s1.errorSeen = false)) :
    logPre ioOk s1 n = (s1, none) := by
  unfold logPre
  rw [if_neg h]

theorem logPre_fire (ioOk : Bool) (s1 : LoggerState) (n : Option JStr)
    (h1 : n = some errLit) (h2 : s1.errorSeen = false) (h4 : s1.flushing = false) :
    logPre ioOk s1 n =
      ({ s1 with buffer := s1.buffer.map (fun _ => none), flushId := s1.flushId + 1,
                 errorSeen := true, errorLoggedAt := some s1.index },
       some { reason := FlushReason.preError, flushId := s1.flushId,
              events := jsSnapshot s1, persisted := ioOk }) := by
  unfold logPre
  rw [if_pos ⟨h1, h2⟩]
  cases ioOk <;> simp [flushRun, writeArtifact, h4]

theorem logPost_skip (ioOk : Bool) (s3 : LoggerState)
    (h : ¬(s3.errorSeen = true ∧ idxEq s3.index s3.errorLoggedAt = true)) :
    logPost ioOk s3 = (s3, none) := by
  unfold logPost
  rw [if_neg h]

theorem logPost_fire (ioOk : Bool) (s3 : LoggerState)
    (h1 : s3.errorSeen = true) (h2 : idxEq s3.index s3.errorLoggedAt = true)
    (h4 : s3.flushing = false) :
    logPost ioOk s3 =
      ({ s3 with buffer := s3.buffer.map (fun _ => none), flushId := s3.flushId + 1,
                 errorSeen := false, errorLoggedAt := none },
       some { reason := FlushReason.postError, flushId := s3.flushId,
              events := jsSnapshot s3, persisted := ioOk }) := by
  unfold logPost
  rw [if_pos ⟨h1, h2⟩]
  cases ioOk <;> simp [flushRun, writeArtifact, h4]

/-- C5: on a live machine (`flushing = false`), while Armed
(`errorSeen = true`) a `log` call never fires a pre-error flush — any
flush it fires is the ordinary post-error one; if the advanced cursor
does not close the window the call fires no flush at all, leaves
`errorSeen` and `errorLoggedAt` untouched and stores the entry as an
ordinary write; and an error-marker event logged while Armed behaves
exactly like any other event name (same flush reasons and same
resulting `errorSeen`, `errorLoggedAt`, `index`, `flushId`).  When the
machine is Idle, a `log` of the error marker fires exactly one
pre-error flush: the Idle-to-Armed transition. -/
theorem armed_window_single_pre_flush (ioOk : Bool) (s : LoggerState) (n : Option JStr)
    (d : JValue) (hfl : s.flushing = false) :
    (s.errorSeen = true →
      (∀ r ∈ (logStep ioOk s n d).2, r.reason = FlushReason.postError) ∧
      (idxEq (advanceIdx s.capacity s.index) s.errorLoggedAt = false →
        (logStep ioOk s n d).2 = [] ∧
        (logStep ioOk s n d).1.errorSeen = true ∧
        (logStep ioOk s n d).1.errorLoggedAt = s.errorLoggedAt ∧
        (logStep ioOk s n d).1.buffer = bufWrite s.buffer s.index (entryOf s n (jsSanitize d))) ∧
      (∀ n' : Option JStr,
        (logStep ioOk s n d).2.map (fun r => r.reason)
          = (logStep ioOk s n' d).2.map (fun r => r.reason) ∧
        (logStep ioOk s n d).1.errorSeen = (logStep ioOk s n' d).1.errorSeen ∧
        (logStep ioOk s n d).1.errorLoggedAt = (logStep ioOk s n' d).1.errorLoggedAt ∧
        (logStep ioOk s n d).1.index = (logStep ioOk s n' d).1.index ∧
        (logStep ioOk s n d).1.flushId = (logStep ioOk s n' d).1.flushId)) ∧
    (s.errorSeen = false → n = some errLit →
      ((logStep ioOk s n d).2.filter (fun r => r.reason = FlushReason.preError)).length = 1) := by
  have hpreskip : ∀ (m : Option JStr) (sv : SVal), s.errorSeen = true →
      logPre ioOk (afterWrite s m sv) m = (afterWrite s m sv, none) := by
    intro m sv hA
    exact logPre_skip _ _ _ (by simp [afterWrite, entryOf, hA])
  constructor
  · intro hA
    refine ⟨?_, ?_, ?_⟩
    · intro r hr
      simp only [logStep, logCore, hpreskip n _ hA] at hr
      by_cases hw : idxEq (advanceIdx s.capacity s.index) s.errorLoggedAt = true
      · rw [logPost_fire ioOk (logAdvance (afterWrite s n (jsSanitize d)))
              (by simp [logAdvance, afterWrite, entryOf, hA])
              (by simp [logAdvance, afterWrite, entryOf, hw])
              (by simp [logAdvance, afterWrite, entryOf, hfl])] at hr
        simp only [Option.toList_none, Option.toList_some, List.nil_append,
          List.mem_singleton] at hr
        rw [hr]
      · rw [logPost_skip ioOk _ (by simp [logAdvance, afterWrite, entryOf, hw])] at hr
        simp at hr
    · intro hw
      simp only [logStep, logCore, hpreskip n _ hA]
      rw [logPost_skip ioOk _ (by simp [logAdvance, afterWrite, entryOf, hw])]
      simp [logAdvance, afterWrite, entryOf, hA]
    · intro n'
      simp only [logStep, logCore, hpreskip n _ hA, hpreskip n' _ hA]
      by_cases hw : idxEq (advanceIdx s.capacity s.index) s.errorLoggedAt = true
      · rw [logPost_fire ioOk (logAdvance (afterWrite s n (jsSanitize d)))
              (by simp [logAdvance, afterWrite, entryOf, hA])
              (by simp [logAdvance, afterWrite, entryOf, hw])
              (by simp [logAdvance, afterWrite, entryOf, hfl]),
            logPost_fire ioOk (logAdvance (afterWrite s n' (jsSanitize d)))
              (by simp [logAdvance, afterWrite, entryOf, hA])
              (by simp [logAdvance, afterWrite, entryOf, hw])
              (by simp [logAdvance, afterWrite, entryOf, hfl])]
        simp [logAdvance, afterWrite, entryOf]
      · rw [logPost_skip ioOk (logAdvance (afterWrite s n (jsSanitize d)))
              (by simp [logAdvance, afterWrite, entryOf, hw]),
            logPost_skip ioOk (logAdvance (afterWrite s n' (jsSanitize d)))
              (by simp [logAdvance, afterWrite, entryOf, hw])]
        simp [logAdvance, afterWrite, entryOf]
  · intro hI hn
    simp only [logStep, logCore]
    rw [logPre_fire ioOk (afterWrite s n (jsSanitize d)) n hn
          (by simp [afterWrite, entryOf, hI]) (by simp [afterWrite, entryOf, hfl])]
    by_cases hw : idxEq (advanceIdx s.capacity s.index) (some s.index) = true
    · rw [logPost_fire ioOk _ (by simp [logAdvance, afterWrite, entryOf])
            (by simp [logAdvance, afterWrite, entryOf, hw])
            (by simp [logAdvance, afterWrite, entryOf, hfl])]
      simp [List.filter]
    · rw [logPost_skip ioOk _ (by simp [logAdvance, afterWrite, entryOf, hw])]
      simp [List.filter]

/-- an example logger state in the Armed configuration -/
def sArmedEx : LoggerState :=
  { capacity := 3, buffer := [none, none, none], index := some 1, flushId := 1,
    errorSeen := true, errorLoggedAt := some (some 0), flushing := false, clock := 2 }

/-- concrete instances discharging the hypotheses of
`armed_window_single_pre_flush`: an Armed state where a further error
marker flushes nothing but post-error reasons, and an Idle state where
the error marker fires exactly one pre-error flush -/
theorem armed_window_single_pre_flush_witness :
    (sArmedEx.flushing = false ∧ sArmedEx.errorSeen = true ∧
      ∀ r ∈ (logStep true sArmedEx (some errLit) payB).2, r.reason = FlushReason.postError) ∧
    ((initLogger 3).flushing = false ∧ (initLogger 3).errorSeen = false ∧
      ((logStep true (initLogger 3) (some errLit) payB).2.filter
        (fun r => r.reason = FlushReason.preError)).length = 1) :=
  ⟨⟨rfl, rfl, ((armed_window_single_pre_flush true sArmedEx (some errLit) payB rfl).1 rfl).1⟩,
   ⟨rfl, rfl, (armed_window_single_pre_flush true (initLogger 3) (some errLit) payB rfl).2
      rfl rfl⟩⟩

/-- invariant of a logger that has performed `N` non-error writes from
fresh: Idle machine, cursor at `N mod C`, and the occupied slots form a
prefix of `min N C` filled cells followed by empty cells -/
def NonErrorInv (C N : Nat) (s : LoggerState) : Prop :=
  s.capacity = C ∧ s.flushing = false ∧ s.errorSeen = false ∧ s.index = some (N % C) ∧
  ∃ front : List (Option Entry),
    (∀ x ∈ front, x.isSome = true) ∧ front.length = min N C ∧
    s.buffer = front ++ List.replicate (C - min N C) none

theorem NonErrorInv_init (C : Nat) : NonErrorInv C 0 (initLogger C) := by
  refine ⟨rfl, rfl, rfl, by simp [initLogger], [], by simp, by simp, by simp [initLogger]⟩

theorem NonErrorInv_step (ioOk : Bool) (C N : Nat) (s : LoggerState) (n : Option JStr)
    (d : JValue) (hC : 1 ≤ C) (hinv : NonErrorInv C N s) (hn : n ≠ some errLit) :
    NonErrorInv C (N + 1) (logStep ioOk s n d).1 ∧ (logStep ioOk s n d).2 = [] := by
  obtain ⟨hcap, hfl, hseen, hidx, front, hfsome, hflen, hbuf⟩ := hinv
  have hstep : logStep ioOk s n d = ({ afterWrite s n (jsSanitize d) with
      index := advanceIdx s.capacity s.index }, []) := by
    simp only [logStep, logCore,
      logPre_skip ioOk (afterWrite s n (jsSanitize d)) n (fun hc => hn hc.1),
      logPost_skip ioOk (logAdvance (afterWrite s n (jsSanitize d)))
        (by simp [logAdvance, afterWrite, entryOf, hseen])]
    simp [logAdvance, afterWrite, entryOf]
  rw [hstep]
  refine ⟨⟨by simp [afterWrite, entryOf, hcap], by simp [afterWrite, entryOf, hfl],
    by simp [afterWrite, entryOf, hseen], ?_, ?_⟩, rfl⟩
  · have hCpos : C ≠ 0 := Nat.one_le_iff_ne_zero.mp hC
    simp only [afterWrite, entryOf, advanceIdx, hcap, hidx]
    rw [if_neg hCpos]
    simp [Nat.mod_add_mod]
  · simp only [afterWrite, entryOf, bufWrite, hidx, hbuf]
    by_cases hlt : N < C
    · have hmin : min N C = N := Nat.min_eq_left (Nat.le_of_lt hlt)
      have hmod : N % C = N := Nat.mod_eq_of_lt hlt
      have hrep : C - min N C = (C - (N + 1)) + 1 := by omega
      refine ⟨front ++ [some (entryOf s n (jsSanitize d))], ?_, ?_, ?_⟩
      · intro x hx
        rcases List.mem_append.mp hx with hx | hx
        · exact hfsome x hx
        · simp at hx; simp [hx]
      · simp [hflen, hmin]
        omega
      · rw [hmod, hrep, List.replicate_succ,
          List.set_append_right _ _ (by rw [hflen, hmin])]
        have hmin1 : min (N + 1) C = N + 1 := Nat.min_eq_left hlt
        simp [hflen, hmin, hmin1, entryOf]
    · have hge : C ≤ N := Nat.le_of_not_lt hlt
      have hmin : min N C = C := Nat.min_eq_right hge
      have hmin1 : min (N + 1) C = C := Nat.min_eq_right (Nat.le_succ_of_le hge)
      have hmodlt : N % C < C := Nat.mod_lt _ (Nat.lt_of_lt_of_le Nat.zero_lt_one hC)
      refine ⟨front.set (N % C) (some (entryOf s n (jsSanitize d))), ?_, ?_, ?_⟩
      · intro x hx
        rcases List.mem_or_eq_of_mem_set hx with hx | hx
        · exact hfsome x hx
        · simp [hx]
      · simp [hflen, hmin, hmin1]
      · rw [hmin, hmin1, Nat.sub_self, List.replicate_zero, List.append_nil,
          List.append_nil]
        rfl

theorem NonErrorInv_run (ioOk : Bool) (C : Nat) (calls : List (Option JStr × JValue))
    (hC : 1 ≤ C) :
    ∀ (N : Nat) (s : LoggerState), NonErrorInv C N s →
      (∀ c ∈ calls, c.1 ≠ some errLit) →
      NonErrorInv C (N + calls.length) (runLogs ioOk s calls).1 := by
  induction calls with
  | nil => intro N s h _; simpa using h
  | cons c cs ih =>
    intro N s h hne
    have h1 := NonErrorInv_step ioOk C N s c.1 c.2 hC h (hne c (by simp))
    have h2 := ih (N + 1) (logStep ioOk s c.1 c.2).1 h1.1 (fun x hx => hne x (by simp [hx]))
    unfold runLogs
    simpa [Nat.add_comm, Nat.add_assoc, Nat.add_left_comm] using h2

theorem NonErrorInv_snapshot_length (C N : Nat) (s : LoggerState) (hC : 1 ≤ C)
    (hinv : NonErrorInv C N s) : (jsSnapshot s).length = min N C := by
  obtain ⟨hcap, _, _, hidx, front, hfsome, hflen, hbuf⟩ := hinv
  have hCpos : 0 < C := hC
  have hblen : s.buffer.length = s.capacity := by
    rw [hbuf, hcap]
    simp [hflen]
  rw [jsSnapshot_eq_rotate s (N % C) (by rw [hidx]) hblen (by rw [hcap]; exact hCpos)]
  rw [filterMap_id_length, (List.rotate_perm s.buffer (N % C)).countP_eq]
  rw [hbuf, List.countP_append]
  rw [List.countP_eq_length.mpr (by intro a ha; simpa using hfsome a ha)]
  rw [List.countP_eq_zero.mpr (by intro a ha; simp [List.eq_of_mem_replicate ha])]
  simp [hflen]

/-- C6: for every capacity C at least 1 and every sequence of N log
calls whose event names are not the error marker, starting from a
fresh logger, `getCurrentBuffer()` returns a sequence of length
min(N, C). -/
theorem currentBuffer_length_min (ioOk : Bool) (C : Nat)
    (calls : List (Option JStr × JValue)) (hC : 1 ≤ C)
    (hne : ∀ c ∈ calls, c.1 ≠ some errLit) :
    (getCurrentBuffer (runLogs ioOk (initLogger C) calls).1).length = min calls.length C := by
  have h := NonErrorInv_run ioOk C calls hC 0 (initLogger C) (NonErrorInv_init C) hne
  rw [Nat.zero_add] at h
  exact NonErrorInv_snapshot_length C calls.length _ hC h

/-- concrete instance discharging the hypotheses of
`currentBuffer_length_min`: three non-error writes into capacity 2
leave min(3, 2) = 2 entries -/
theorem currentBuffer_length_min_witness :
    1 ≤ 2 ∧
    (∀ c ∈ [((some "a".data : Option JStr), (⟨[], JRef.prim (JPrim.jnum 1)⟩ : JValue)),
            (some "b".data, ⟨[], JRef.prim (JPrim.jnum 2)⟩),
            (some "c".data, ⟨[], JRef.prim (JPrim.jnum 3)⟩)], c.1 ≠ some errLit) ∧
    (getCurrentBuffer (runLogs true (initLogger 2)
        [((some "a".data : Option JStr), (⟨[], JRef.prim (JPrim.jnum 1)⟩ : JValue)),
         (some "b".data, ⟨[], JRef.prim (JPrim.jnum 2)⟩),
         (some "c".data, ⟨[], JRef.prim (JPrim.jnum 3)⟩)]).1).length = min 3 2 :=
  ⟨by decide, by decide,
   currentBuffer_length_min true 2 _ (by decide) (by decide)⟩

theorem flushRun_capacity (ioOk : Bool) (r : FlushReason) (t : LoggerState) :
    (flushRun ioOk r t).1.capacity = t.capacity := by
  unfold flushRun
  split
  · rfl
  · cases ioOk <;> simp [writeArtifact]

theorem flushRun_rec (ioOk : Bool) (r : FlushReason) (t : LoggerState) (rec : FlushRec)
    (h : (flushRun ioOk r t).2 = some rec) :
    rec.events = jsSnapshot t ∧ rec.reason = r ∧ rec.flushId = t.flushId := by
  unfold flushRun at h
  split at h
  · simp at h
  · cases ioOk <;> simp [writeArtifact] at h <;> (subst h; exact ⟨rfl, rfl, rfl⟩)

theorem logPre_capacity (ioOk : Bool) (t : LoggerState) (n : Option JStr) :
    (logPre ioOk t n).1.capacity = t.capacity := by
  unfold logPre
  split
  · simp [flushRun_capacity]
  · rfl

theorem logPost_capacity (ioOk : Bool) (t : LoggerState) :
    (logPost ioOk t).1.capacity = t.capacity := by
  unfold logPost
  split
  · simp [flushRun_capacity]
  · rfl

theorem logPre_rec_events (ioOk : Bool) (t : LoggerState) (n : Option JStr) (rec : FlushRec)
    (h : (logPre ioOk t n).2 = some rec) :
    rec.events = jsSnapshot t ∧ rec.reason = FlushReason.preError := by
  unfold logPre at h
  split at h
  · have := flushRun_rec ioOk FlushReason.preError t rec h
    exact ⟨this.1, this.2.1⟩
  · simp at h

theorem logPost_rec_events (ioOk : Bool) (t : LoggerState) (rec : FlushRec)
    (h : (logPost ioOk t).2 = some rec) :
    rec.events = jsSnapshot t ∧ rec.reason = FlushReason.postError := by
  unfold logPost at h
  split at h
  · have := flushRun_rec ioOk FlushReason.postError t rec h
    exact ⟨this.1, this.2.1⟩
  · simp at h

theorem logStep_capacity (ioOk : Bool) (s : LoggerState) (n : Option JStr) (d : JValue) :
    (logStep ioOk s n d).1.capacity = s.capacity := by
  show (logPost ioOk _).1.capacity = s.capacity
  rw [logPost_capacity]
  show (logPre ioOk (afterWrite s n (jsSanitize d)) n).1.capacity = s.capacity
  rw [logPre_capacity]
  rfl

theorem logStep_cap0_records (ioOk : Bool) (s : LoggerState) (n : Option JStr) (d : JValue)
    (h : s.capacity = 0) : ∀ r ∈ (logStep ioOk s n d).2, r.events = [] := by
  intro r hr
  have hmem : r ∈ (logPre ioOk (afterWrite s n (jsSanitize d)) n).2.toList ++
      (logPost ioOk (logAdvance (logPre ioOk (afterWrite s n (jsSanitize d)) n).1)).2.toList :=
    hr
  rcases List.mem_append.mp hmem with hx | hx
  · rw [Option.mem_toList] at hx
    rw [(logPre_rec_events ioOk _ n r hx).1]
    exact jsSnapshot_capacity_zero _ (by simpa [afterWrite, entryOf] using h)
  · rw [Option.mem_toList] at hx
    rw [(logPost_rec_events ioOk _ r hx).1]
    refine jsSnapshot_capacity_zero _ ?_
    show (logPre ioOk (afterWrite s n (jsSanitize d)) n).1.capacity = 0
    rw [logPre_capacity]
    simpa [afterWrite, entryOf] using h

/-- C9: a capacity-0 logger is safe: every sequence of `log()` calls
completes normally (the `Except`-level run always returns ok),
`getCurrentBuffer()` is always the empty sequence, and every flush that
fires carries an empty `events` array. -/
theorem capacity_zero_safe (ioOk : Bool) (calls : List (Option JStr × JValue)) :
    getCurrentBuffer (runLogs ioOk (initLogger 0) calls).1 = [] ∧
    (∀ r ∈ (runLogs ioOk (initLogger 0) calls).2, r.events = []) ∧
    (∃ out, runLogsE ioOk (initLogger 0) calls = Except.ok out) := by
  have main : ∀ (cs : List (Option JStr × JValue)) (s : LoggerState), s.capacity = 0 →
      (runLogs ioOk s cs).1.capacity = 0 ∧ (∀ r ∈ (runLogs ioOk s cs).2, r.events = []) := by
    intro cs
    induction cs with
    | nil => intro s h; exact ⟨h, by simp [runLogs]⟩
    | cons c rest ih =>
      intro s h
      have hstep : (logStep ioOk s c.1 c.2).1.capacity = 0 := by
        rw [logStep_capacity]; exact h
      have hrest := ih (logStep ioOk s c.1 c.2).1 hstep
      refine ⟨by simpa [runLogs] using hrest.1, ?_⟩
      intro r hr
      simp only [runLogs, List.mem_append] at hr
      rcases hr with hr | hr
      · exact logStep_cap0_records ioOk s c.1 c.2 h r hr
      · exact hrest.2 r hr
  have h0 := main calls (initLogger 0) rfl
  refine ⟨?_, h0.2, ⟨runLogs ioOk (initLogger 0) calls, runLogsE_ok ioOk (initLogger 0) calls⟩⟩
  exact jsSnapshot_capacity_zero _ h0.1

/-- C10: for every string met by the sanitizers' truncation step, a
string of exactly 1000 units is preserved verbatim, and a string longer
than 1000 units becomes its first 1000 units plus the 3-unit ellipsis
marker, 1003 units in all; the index.js sanitizer and the bit-optimized
sanitizer both apply exactly this transform to a top-level string
payload. -/
theorem string_truncation (s : JStr) :
    (s.length = 1000 → truncateStr s = s) ∧
    (s.length > 1000 →
      truncateStr s = s.take 1000 ++ ellipsisMark ∧ (truncateStr s).length = 1003) ∧
    (∀ heap : List JNode,
      jsSanitize ⟨heap, JRef.prim (JPrim.jstr s)⟩ = SVal.jstr (truncateStr s)) ∧
    (∀ heap : List JNode,
      (ultraSanitizeG ⟨heap, JRef.prim (JPrim.jstr s)⟩).root
        = JRef.prim (JPrim.jstr (truncateStr s))) := by
  refine ⟨?_, ?_, ?_, ?_⟩
  · intro h
    unfold truncateStr
    rw [if_neg (by omega)]
  · intro h
    constructor
    · unfold truncateStr
      rw [if_pos h]
    · unfold truncateStr
      rw [if_pos h]
      rw [List.length_append, List.length_take]
      have h3 : ellipsisMark.length = 3 := rfl
      rw [h3]
      omega
  · intro heap
    simp [jsSanitize, sanitizeE, strTop, strRef, sPrim, isNullish]
  · intro heap
    simp [ultraSanitizeG, ultraSlot, isNullish]

set_option maxRecDepth 40000 in
/-- concrete instances discharging the hypotheses of
`string_truncation`: the 1000-unit string survives verbatim, the
1001-unit string becomes 1003 units -/
theorem string_truncation_witness :
    ((List.replicate 1000 'a').length = 1000 ∧
      truncateStr (List.replicate 1000 'a') = List.replicate 1000 'a') ∧
    ((List.replicate 1001 'a').length > 1000 ∧
      (truncateStr (List.replicate 1001 'a')).length = 1003) :=
  ⟨⟨by decide, (string_truncation (List.replicate 1000 'a')).1 (by decide)⟩,
   ⟨by decide, ((string_truncation (List.replicate 1001 'a')).2.1 (by decide)).2⟩⟩

theorem rotate_set_self (l : List α) (i : Nat) (v : α) (h : i < l.length) :
    (l.set i v).rotate i = v :: (l.drop (i + 1) ++ l.take i) := by
  rw [List.set_eq_take_append_cons_drop, if_pos h]
  rw [List.rotate_eq_drop_append_take
    (by simp [List.length_take, List.length_drop]; omega)]
  rw [List.drop_left' (by simp [List.length_take]; omega)]
  rw [List.take_left' (by simp [List.length_take]; omega)]
  simp

theorem rotate_self_decomp (l : List α) (i : Nat) (h : i < l.length) :
    l.rotate i = l[i] :: (l.drop (i + 1) ++ l.take i) := by
  rw [List.rotate_eq_drop_append_take (Nat.le_of_lt h)]
  rw [List.drop_eq_getElem_cons h]
  simp only [List.cons_append]

theorem rotate_set_advance (l : List α) (i : Nat) (v : α) (h : i < l.length) :
    (l.set i v).rotate ((i + 1) % l.length) = (l.drop (i + 1) ++ l.take i) ++ [v] := by
  have hlen : (l.set i v).length = l.length := by simp
  rw [show (i + 1) % l.length = (i + 1) % (l.set i v).length by rw [hlen]]
  rw [List.rotate_mod]
  rw [show i + 1 = i + 1 from rfl, ← List.rotate_rotate]
  rw [rotate_set_self l i v h]
  rw [List.rotate_cons_succ, List.rotate_zero]

theorem mem_rest_mem (l : List (Option Entry)) (i : Nat) (x : Entry)
    (hx : x ∈ (l.drop (i + 1) ++ l.take i).filterMap id) : some x ∈ l := by
  rw [List.mem_filterMap] at hx
  obtain ⟨a, ha, hax⟩ := hx
  have : a = some x := hax
  subst this
  rcases List.mem_append.mp ha with h | h
  · exact List.mem_of_mem_drop h
  · exact List.mem_of_mem_take h

theorem sorted_tail_of_snapshot (s : LoggerState) (i : Nat) (hi : s.index = some i)
    (hlt : i < s.capacity) (hlen : s.buffer.length = s.capacity)
    (hp : List.Pairwise (fun a b => a.ts < b.ts) (jsSnapshot s)) :
    List.Pairwise (fun a b => a.ts < b.ts)
      ((s.buffer.drop (i + 1) ++ s.buffer.take i).filterMap id) := by
  rw [jsSnapshot_eq_rotate s i hi hlen (Nat.lt_of_le_of_lt (Nat.zero_le _) hlt)] at hp
  rw [rotate_self_decomp s.buffer i (by rw [hlen]; exact hlt)] at hp
  exact List.Pairwise.sublist (List.Sublist.filterMap id (List.sublist_cons_self _ _)) hp

theorem snapshot_afterWrite (s : LoggerState) (n : Option JStr) (sv : SVal) (i : Nat)
    (hi : s.index = some i) (hlt : i < s.capacity) (hlen : s.buffer.length = s.capacity) :
    jsSnapshot (afterWrite s n sv) =
      entryOf s n sv :: ((s.buffer.drop (i + 1) ++ s.buffer.take i).filterMap id) := by
  have hib : i < s.buffer.length := by rw [hlen]; exact hlt
  rw [jsSnapshot_eq_rotate (afterWrite s n sv) i
    (by simp [afterWrite, entryOf, hi]) (by simp [afterWrite, entryOf, bufWrite, hi, hlen])
    (by simp [afterWrite, entryOf]; omega)]
  have hb : (afterWrite s n sv).buffer = s.buffer.set i (some (entryOf s n sv)) := by
    simp [afterWrite, bufWrite, hi]
  rw [hb, rotate_set_self s.buffer i _ hib]
  simp [List.filterMap_cons]

theorem snapshot_advance_afterWrite (s : LoggerState) (n : Option JStr) (sv : SVal) (i : Nat)
    (hi : s.index = some i) (hlt : i < s.capacity) (hlen : s.buffer.length = s.capacity) :
    jsSnapshot (logAdvance (afterWrite s n sv)) =
      ((s.buffer.drop (i + 1) ++ s.buffer.take i).filterMap id) ++ [entryOf s n sv] := by
  have hib : i < s.buffer.length := by rw [hlen]; exact hlt
  have hcap : s.capacity ≠ 0 := by omega
  have hadv : (logAdvance (afterWrite s n sv)).index = some ((i + 1) % s.capacity) := by
    simp [logAdvance, afterWrite, entryOf, advanceIdx, hi, hcap]
  rw [jsSnapshot_eq_rotate (logAdvance (afterWrite s n sv)) ((i + 1) % s.capacity)
    hadv (by simp [logAdvance, afterWrite, entryOf, bufWrite, hi, hlen])
    (by simp [logAdvance, afterWrite, entryOf]; omega)]
  have hb : (logAdvance (afterWrite s n sv)).buffer = s.buffer.set i (some (entryOf s n sv)) := by
    simp [logAdvance, afterWrite, bufWrite, hi]
  rw [hb, show (i + 1) % s.capacity = (i + 1) % s.buffer.length by rw [hlen]]
  rw [rotate_set_advance s.buffer i _ hib]
  simp [List.filterMap_append]

/-- well-formedness of a reachable logger state: intact buffer length,
no flush in flight, every stored stamp strictly below the clock, the
snapshot strictly increasing in write stamps, and a valid numeric
cursor whenever the capacity is positive -/
def WFlog (s : LoggerState) : Prop :=
  s.buffer.length = s.capacity ∧ s.flushing = false ∧
  (∀ e : Entry, some e ∈ s.buffer → e.ts < s.clock) ∧
  List.Pairwise (fun a b => a.ts < b.ts) (jsSnapshot s) ∧
  (0 < s.capacity → ∃ i, s.index = some i ∧ i < s.capacity)

/-- ordering shape of one flush artifact: a post-error artifact is
strictly increasing in write stamps; a pre-error artifact is either
empty or lists the just-written (newest) entry first, followed by the
strictly increasing older entries -/
def GoodRec (r : FlushRec) : Prop :=
  (r.reason = FlushReason.postError → List.Pairwise (fun a b => a.ts < b.ts) r.events) ∧
  (r.reason = FlushReason.preError →
    r.events = [] ∨ ∃ e rest, r.events = e :: rest ∧
      List.Pairwise (fun a b => a.ts < b.ts) rest ∧ ∀ x ∈ rest, x.ts < e.ts)

theorem GoodRec_of_empty (r : FlushRec) (h : r.events = []) : GoodRec r :=
  ⟨fun _ => by rw [h]; exact List.Pairwise.nil, fun _ => Or.inl h⟩

theorem WFlog_of_clear (t : LoggerState) (hlen : t.buffer.length = t.capacity)
    (hfl : t.flushing = false) (hall : ∀ x ∈ t.buffer, x = none)
    (hidx : 0 < t.capacity → ∃ i, t.index = some i ∧ i < t.capacity) : WFlog t :=
  ⟨hlen, hfl, fun e he => absurd (hall _ he) (by simp),
   by rw [jsSnapshot_all_none t hall]; exact List.Pairwise.nil, hidx⟩

theorem flushRun_buffer_length (ioOk : Bool) (r : FlushReason) (t : LoggerState) :
    (flushRun ioOk r t).1.buffer.length = t.buffer.length := by
  unfold flushRun
  split
  · rfl
  · cases ioOk <;> simp [writeArtifact]

theorem flushRun_flushing (ioOk : Bool) (r : FlushReason) (t : LoggerState) :
    (flushRun ioOk r t).1.flushing = t.flushing := by
  unfold flushRun
  split
  · rfl
  · cases ioOk <;> simp [writeArtifact]

theorem logPre_buffer_length (ioOk : Bool) (t : LoggerState) (n : Option JStr) :
    (logPre ioOk t n).1.buffer.length = t.buffer.length := by
  unfold logPre
  split
  · simp [flushRun_buffer_length]
  · rfl

theorem logPost_buffer_length (ioOk : Bool) (t : LoggerState) :
    (logPost ioOk t).1.buffer.length = t.buffer.length := by
  unfold logPost
  split
  · simp [flushRun_buffer_length]
  · rfl

theorem logPre_flushing (ioOk : Bool) (t : LoggerState) (n : Option JStr) :
    (logPre ioOk t n).1.flushing = t.flushing := by
  unfold logPre
  split
  · simp [flushRun_flushing]
  · rfl

theorem logPost_flushing (ioOk : Bool) (t : LoggerState) :
    (logPost ioOk t).1.flushing = t.flushing := by
  unfold logPost
  split
  · simp [flushRun_flushing]
  · rfl

theorem logStep_buffer_length (ioOk : Bool) (s : LoggerState) (n : Option JStr) (d : JValue) :
    (logStep ioOk s n d).1.buffer.length = s.buffer.length := by
  show (logPost ioOk _).1.buffer.length = _
  rw [logPost_buffer_length]
  show (logPre ioOk (afterWrite s n (jsSanitize d)) n).1.buffer.length = _
  rw [logPre_buffer_length]
  simp [afterWrite, bufWrite, entryOf]
  cases s.index <;> simp

theorem logStep_flushing (ioOk : Bool) (s : LoggerState) (n : Option JStr) (d : JValue) :
    (logStep ioOk s n d).1.flushing = s.flushing := by
  show (logPost ioOk _).1.flushing = _
  rw [logPost_flushing]
  show (logPre ioOk (afterWrite s n (jsSanitize d)) n).1.flushing = _
  rw [logPre_flushing]
  rfl

theorem WFlog_step (ioOk : Bool) (s : LoggerState) (n : Option JStr) (d : JValue)
    (h : WFlog s) :
    WFlog (logStep ioOk s n d).1 ∧ ∀ r ∈ (logStep ioOk s n d).2, GoodRec r := by
  obtain ⟨hlen, hfl, hts, hp, hidx⟩ := h
  by_cases hcap : s.capacity = 0
  · -- degenerate capacity-0 logger: every snapshot is empty
    have hc' : (logStep ioOk s n d).1.capacity = 0 := by rw [logStep_capacity]; exact hcap
    have hb0 : (logStep ioOk s n d).1.buffer.length = 0 := by
      rw [logStep_buffer_length, hlen, hcap]
    constructor
    · refine ⟨by rw [hb0, hc'], by rw [logStep_flushing]; exact hfl, ?_, ?_, ?_⟩
      · intro e he
        rw [List.length_eq_zero.mp hb0] at he
        cases he
      · rw [jsSnapshot_capacity_zero _ hc']
        exact List.Pairwise.nil
      · intro hpos
        rw [hc'] at hpos
        omega
    · intro r hr
      exact GoodRec_of_empty r (logStep_cap0_records ioOk s n d hcap r hr)
  · -- live buffer
    obtain ⟨i, hi, hilt⟩ := hidx (Nat.pos_of_ne_zero hcap)
    have hib : i < s.buffer.length := by rw [hlen]; exact hilt
    have hrest_sorted := sorted_tail_of_snapshot s i hi hilt hlen hp
    have hrest_ts : ∀ x ∈ (s.buffer.drop (i + 1) ++ s.buffer.take i).filterMap id,
        x.ts < s.clock := fun x hx => hts x (mem_rest_mem s.buffer i x hx)
    have hsnapW := snapshot_afterWrite s n (jsSanitize d) i hi hilt hlen
    have hsnapAdv := snapshot_advance_afterWrite s n (jsSanitize d) i hi hilt hlen
    have hsortedAdv : List.Pairwise (fun a b => a.ts < b.ts)
        (((s.buffer.drop (i + 1) ++ s.buffer.take i).filterMap id)
          ++ [entryOf s n (jsSanitize d)]) := by
      rw [List.pairwise_append]
      refine ⟨hrest_sorted, List.pairwise_singleton _ _, ?_⟩
      intro a ha b hb
      rw [List.mem_singleton] at hb
      subst hb
      exact hrest_ts a ha
    have hadv : advanceIdx s.capacity s.index = some ((i + 1) % s.capacity) := by
      rw [hi]
      simp [advanceIdx, hcap]
    have hmodlt : (i + 1) % s.capacity < s.capacity :=
      Nat.mod_lt _ (Nat.pos_of_ne_zero hcap)
    have hWbuf : (afterWrite s n (jsSanitize d)).buffer
        = s.buffer.set i (some (entryOf s n (jsSanitize d))) := by
      simp [afterWrite, bufWrite, hi]
    have hWts : ∀ e : Entry, some e ∈ (afterWrite s n (jsSanitize d)).buffer
        → e.ts < s.clock + 1 := by
      intro e he
      rw [hWbuf] at he
      rcases List.mem_or_eq_of_mem_set he with he | he
      · exact Nat.lt_succ_of_lt (hts e he)
      · rw [Option.some_inj] at he
        rw [he]
        simp [entryOf]
    by_cases hpre : n = some errLit ∧ s.errorSeen = false
    · -- the call arms the window and fires the pre-error flush
      simp only [logStep, logCore,
        logPre_fire ioOk (afterWrite s n (jsSanitize d)) n hpre.1
          (by simpa [afterWrite, entryOf] using hpre.2)
          (by simpa [afterWrite, entryOf] using hfl)]
      have hallP1 : ∀ x ∈ ((afterWrite s n (jsSanitize d)).buffer.map
          (fun _ => (none : Option Entry))), x = none := by
        intro x hx
        rcases List.mem_map.mp hx with ⟨a, -, hax⟩
        exact hax.symm
      by_cases hw : idxEq (some ((i + 1) % s.capacity)) (some (some i)) = true
      · rw [logPost_fire ioOk _
            (by simp [logAdvance, afterWrite, entryOf])
            (by simp [logAdvance, afterWrite, entryOf, advanceIdx, hi, hcap]; exact hw)
            (by simpa [logAdvance, afterWrite, entryOf] using hfl)]
        constructor
        · refine WFlog_of_clear _ ?_ ?_ ?_ ?_
          · simp [logAdvance, afterWrite, entryOf, bufWrite, hi, hlen]
          · simpa [logAdvance, afterWrite, entryOf] using hfl
          · intro x hx
            simp only [logAdvance, afterWrite, entryOf] at hx
            rcases List.mem_map.mp hx with ⟨a, -, hax⟩
            exact hax.symm
          · intro hpos
            refine ⟨(i + 1) % s.capacity, ?_, ?_⟩
            · simp [logAdvance, afterWrite, entryOf, advanceIdx, hi, hcap]
            · simpa [logAdvance, afterWrite, entryOf] using hmodlt
        · intro r hr
          simp only [Option.toList_some, List.mem_append, List.mem_singleton] at hr
          rcases hr with hr | hr <;> subst hr
          · constructor
            · intro habs
              cases habs
            · intro hpr
              refine Or.inr ⟨entryOf s n (jsSanitize d),
                List.filterMap id (List.drop (i + 1) s.buffer ++ List.take i s.buffer),
                ?_, hrest_sorted, hrest_ts⟩
              exact hsnapW
          · refine GoodRec_of_empty _ ?_
            show jsSnapshot _ = []
            refine jsSnapshot_all_none _ ?_
            intro x hx
            simp only [logAdvance] at hx
            exact hallP1 x hx
      · rw [logPost_skip ioOk _
            (by simp only [logAdvance, afterWrite, entryOf, advanceIdx, hi, hcap]
                simp [hcap]
                simpa using hw)]
        constructor
        · refine WFlog_of_clear _ ?_ ?_ ?_ ?_
          · simp [logAdvance, afterWrite, entryOf, bufWrite, hi, hlen]
          · simpa [logAdvance, afterWrite, entryOf] using hfl
          · intro x hx
            simp only [logAdvance] at hx
            exact hallP1 x hx
          · intro hpos
            refine ⟨(i + 1) % s.capacity, ?_, ?_⟩
            · simp [logAdvance, afterWrite, entryOf, advanceIdx, hi, hcap]
            · simpa [logAdvance, afterWrite, entryOf] using hmodlt
        · intro r hr
          simp only [Option.toList_some, Option.toList_none, List.append_nil,
            List.mem_singleton] at hr
          subst hr
          constructor
          · intro habs
            cases habs
          · intro hpr
            refine Or.inr ⟨entryOf s n (jsSanitize d),
              List.filterMap id (List.drop (i + 1) s.buffer ++ List.take i s.buffer),
              ?_, hrest_sorted, hrest_ts⟩
            exact hsnapW
    · -- ordinary write
      simp only [logStep, logCore, logPre_skip ioOk (afterWrite s n (jsSanitize d)) n
        (by simpa [afterWrite, entryOf] using hpre)]
      by_cases hw : (logAdvance (afterWrite s n (jsSanitize d))).errorSeen = true ∧
          idxEq (logAdvance (afterWrite s n (jsSanitize d))).index
            (logAdvance (afterWrite s n (jsSanitize d))).errorLoggedAt = true
      · rw [logPost_fire ioOk _ hw.1 hw.2
            (by simpa [logAdvance, afterWrite, entryOf] using hfl)]
        constructor
        · refine WFlog_of_clear _ ?_ ?_ ?_ ?_
          · simp [logAdvance, afterWrite, entryOf, bufWrite, hi, hlen]
          · simpa [logAdvance, afterWrite, entryOf] using hfl
          · intro x hx
            simp only [logAdvance] at hx
            rcases List.mem_map.mp hx with ⟨a, -, hax⟩
            exact hax.symm
          · intro hpos
            refine ⟨(i + 1) % s.capacity, ?_, ?_⟩
            · simp [logAdvance, afterWrite, entryOf, advanceIdx, hi, hcap]
            · simpa [logAdvance, afterWrite, entryOf] using hmodlt
        · intro r hr
          simp only [Option.toList_some, Option.toList_none, List.nil_append,
            List.mem_singleton] at hr
          subst hr
          refine ⟨fun _ => ?_, fun habs => by cases habs⟩
          show List.Pairwise _ (jsSnapshot _)
          rw [hsnapAdv]
          exact hsortedAdv
      · rw [logPost_skip ioOk _ hw]
        refine ⟨⟨?_, ?_, ?_, ?_, ?_⟩, ?_⟩
        · simp [logAdvance, afterWrite, entryOf, bufWrite, hi, hlen]
        · simpa [logAdvance, afterWrite, entryOf] using hfl
        · intro e he
          simp only [logAdvance] at he
          have := hWts e he
          simpa [logAdvance, afterWrite, entryOf] using this
        · rw [hsnapAdv]
          exact hsortedAdv
        · intro hpos
          refine ⟨(i + 1) % s.capacity, ?_, ?_⟩
          · simp [logAdvance, afterWrite, entryOf, advanceIdx, hi, hcap]
          · simpa [logAdvance, afterWrite, entryOf] using hmodlt
        · intro r hr
          simp at hr

theorem WFlog_init (C : Nat) : WFlog (initLogger C) := by
  refine ⟨by simp [initLogger], rfl, ?_, ?_, ?_⟩
  · intro e he
    have := List.eq_of_mem_replicate he
    cases this
  · rw [jsSnapshot_all_none _ (fun x hx => List.eq_of_mem_replicate hx)]
    exact List.Pairwise.nil
  · intro hpos
    exact ⟨0, rfl, hpos⟩

theorem WFlog_run (ioOk : Bool) (calls : List (Option JStr × JValue)) :
    ∀ s : LoggerState, WFlog s →
      WFlog (runLogs ioOk s calls).1 ∧ ∀ r ∈ (runLogs ioOk s calls).2, GoodRec r := by
  induction calls with
  | nil => intro s h; exact ⟨h, by simp [runLogs]⟩
  | cons c cs ih =>
    intro s h
    have hstep := WFlog_step ioOk s c.1 c.2 h
    have hrest := ih (logStep ioOk s c.1 c.2).1 hstep.1
    refine ⟨by simpa [runLogs] using hrest.1, ?_⟩
    intro r hr
    simp only [runLogs, List.mem_append] at hr
    rcases hr with hr | hr
    · exact hstep.2 r hr
    · exact hrest.2 r hr

/-- C2 as amended: starting from a fresh logger of any capacity and
running any sequence of `log` calls, `getCurrentBuffer()` is always in
non-decreasing chronological (write) order, and so is the events list
of every POST-error-context artifact; but a PRE-error-context artifact
is either empty or lists the just-written (newest) error entry FIRST,
followed by the strictly older entries oldest-first — because the
pre-error flush snapshots before the cursor advances, so the walk
starts at the slot of the error entry itself. -/
theorem snapshots_oldest_first (ioOk : Bool) (C : Nat)
    (calls : List (Option JStr × JValue)) :
    List.Pairwise (fun a b => a.ts ≤ b.ts)
      (getCurrentBuffer (runLogs ioOk (initLogger C) calls).1) ∧
    ∀ r ∈ (runLogs ioOk (initLogger C) calls).2,
      (r.reason = FlushReason.postError →
        List.Pairwise (fun a b => a.ts ≤ b.ts) r.events) ∧
      (r.reason = FlushReason.preError →
        r.events = [] ∨ ∃ e rest, r.events = e :: rest ∧
          List.Pairwise (fun a b => a.ts ≤ b.ts) rest ∧ ∀ x ∈ rest, x.ts < e.ts) := by
  have h := WFlog_run ioOk calls (initLogger C) (WFlog_init C)
  refine ⟨h.1.2.2.2.1.imp Nat.le_of_lt, ?_⟩
  intro r hr
  have hg := h.2 r hr
  refine ⟨fun hpost => (hg.1 hpost).imp Nat.le_of_lt, fun hpre => ?_⟩
  rcases hg.2 hpre with he | ⟨e, rest, hev, hsort, hbound⟩
  · exact Or.inl he
  · exact Or.inr ⟨e, rest, hev, hsort.imp Nat.le_of_lt, hbound⟩

/-- the call sequence of the C2 counterexample: two ordinary writes and
then the error-marker write on a capacity-3 logger -/
def callsOrderCex : List (Option JStr × JValue) :=
  [(some "info".data, ⟨[], JRef.prim (JPrim.jnum 1)⟩),
   (some "info".data, ⟨[], JRef.prim (JPrim.jnum 2)⟩),
   (some errLit, ⟨[], JRef.prim (JPrim.jnum 3)⟩)]

/-- C2 counterexample: after `log(info)`, `log(info)`, `log(error)` on
a capacity-3 logger, the single flush artifact is the pre-error-context
one and its events carry the write stamps [2, 0, 1] — the just-written
error entry comes first, ahead of both older entries, so the artifact
is NOT in non-decreasing chronological (write) order. -/
theorem pre_artifact_not_chronological_cex :
    ((runLogs true (initLogger 3) callsOrderCex).2.map
      (fun r => (r.reason, r.events.map (fun e => e.ts))))
      = [(FlushReason.preError, [2, 0, 1])] ∧
    ¬ List.Pairwise (fun a b : Nat => a ≤ b) [2, 0, 1] :=
  ⟨rfl, by decide⟩

/-- the references held directly by a heap node: array elements or
object field values -/
def nodeRefs : JNode → List JRef
  | JNode.jarr es => es
  | JNode.jobj fs => fs.map Prod.snd

/-- one pointer edge of the heap graph: node `a` holds a direct
reference to node `b` -/
def Edge (heap : List JNode) (a b : Nat) : Prop :=
  ∃ nd, heap.get? a = some nd ∧ JRef.ptr b ∈ nodeRefs nd

/-- the payload contains a cyclic reference: some node reachable from
the root by pointer edges lies on a pointer cycle -/
def HasCycle (v : JValue) : Prop :=
  ∃ r i j, v.root = JRef.ptr r ∧ Relation.ReflTransGen (Edge v.heap) r i ∧
    Edge v.heap i j ∧ Relation.ReflTransGen (Edge v.heap) j i

/-- the cyclic payload of the repository's own test: an object with a
name field and a self field pointing back to itself -/
def cycObj : JValue :=
  ⟨[JNode.jobj [("name".data, JRef.prim (JPrim.jstr "test".data)),
                ("self".data, JRef.ptr 0)]], JRef.ptr 0⟩

/-- top-level keys of an object value, the observation used to compare
sanitizer outputs on objects -/
def topKeys : SVal → List JStr
  | SVal.jobj fs => fs.map Prod.fst
  | _ => []

/-- C3 counterexample: on the self-referencing payload, index.js's
`_sanitize` yields the whole-payload sentinel, but index-optimized's
`_fastSanitize`/`_fastClone` does NOT: it keeps the payload and only
replaces the cyclic reference with the different subtree stub
`\x7b error: "circular reference" \x7d`, so the claimed behavior fails
for the sanitizer of index-optimized.js. -/
theorem fastClone_keeps_payload_on_cycle_cex :
    jsSanitize cycObj = sentinel ∧
    fastSanitize cycObj =
      SVal.jobj [("name".data, SVal.jstr "test".data), ("self".data, circStub)] ∧
    topKeys (fastSanitize cycObj) = ["name".data, "self".data] ∧
    topKeys sentinel = ["error".data] ∧
    fastSanitize cycObj ≠ sentinel := by
  refine ⟨rfl, rfl, rfl, rfl, ?_⟩
  intro h
  have h2 := congrArg topKeys h
  revert h2
  decide

theorem exMapM_ok_forall (f : α → Except JErr β) (l : List α) (ys : List β)
    (h : exMapM f l = Except.ok ys) : ∀ x ∈ l, ∃ y, f x = Except.ok y := by
  induction l generalizing ys with
  | nil => intro x hx; cases hx
  | cons a as ih =>
    intro x hx
    rw [show exMapM f (a :: as)
        = (f a).bind (fun y => (exMapM f as).bind (fun ys => Except.ok (y :: ys)))
        from rfl] at h
    cases hfa : f a with
    | error e =>
      rw [hfa] at h
      cases h
    | ok y =>
      rw [hfa] at h
      cases hrest : exMapM f as with
      | error e =>
        rw [hrest] at h
        cases h
      | ok ys' =>
        rcases List.mem_cons.mp hx with hx | hx
        · exact ⟨y, by rw [hx, hfa]⟩
        · exact ih ys' hrest x hx

theorem strRef_ptr_ok_inv (heap : List JNode) (fuel : Nat) (path : List Nat) (m : Nat)
    (res : Option SVal) (h : strRef heap fuel path (JRef.ptr m) = Except.ok res) :
    m ∉ path ∧ ∃ f', fuel = f' + 1 ∧
      ∀ j, Edge heap m j →
        ∃ res', strRef heap f' (m :: path) (JRef.ptr j) = Except.ok res' := by
  cases fuel with
  | zero => cases h
  | succ f =>
    by_cases hm : m ∈ path
    · rw [show strRef heap (f + 1) path (JRef.ptr m)
          = Except.error JErr.cycleErr by simp [strRef, hm]] at h
      cases h
    · refine ⟨hm, f, rfl, ?_⟩
      intro j hedge
      obtain ⟨nd, hget, hmem⟩ := hedge
      cases nd with
      | jarr es =>
        rw [show strRef heap (f + 1) path (JRef.ptr m)
            = (exMapM (fun r => strRef heap f (m :: path) r) es).map
                (fun vs => some (SVal.jarr (vs.map (fun v => v.getD SVal.jnull))))
            by
              have hget' : heap[m]? = some (JNode.jarr es) := by
                rw [← List.get?_eq_getElem?]; exact hget
              simp [strRef, hm, hget']] at h
        cases hex : exMapM (fun r => strRef heap f (m :: path) r) es with
        | error e => rw [hex] at h; cases h
        | ok vs =>
          have hj : JRef.ptr j ∈ es := by simpa [nodeRefs] using hmem
          obtain ⟨y, hy⟩ := exMapM_ok_forall _ es vs hex (JRef.ptr j) hj
          exact ⟨y, hy⟩
      | jobj fs =>
        rw [show strRef heap (f + 1) path (JRef.ptr m)
            = (exMapM (fun kv => (strRef heap f (m :: path) kv.2).map
                  (fun v => (kv.1, v))) fs).map
                (fun kvs => some (SVal.jobj (kvs.filterMap
                  (fun kv => kv.2.map (fun v => (kv.1, v))))))
            by
              have hget' : heap[m]? = some (JNode.jobj fs) := by
                rw [← List.get?_eq_getElem?]; exact hget
              simp [strRef, hm, hget']] at h
        cases hex : exMapM (fun kv => (strRef heap f (m :: path) kv.2).map
            (fun v => (kv.1, v))) fs with
        | error e => rw [hex] at h; cases h
        | ok kvs =>
          simp only [nodeRefs, List.mem_map] at hmem
          obtain ⟨kv, hkv, hkv2⟩ := hmem
          obtain ⟨y, hy⟩ := exMapM_ok_forall _ fs kvs hex kv hkv
          cases hval : strRef heap f (m :: path) kv.2 with
          | error e => rw [hval] at hy; cases hy
          | ok v =>
            rw [← hkv2]
            exact ⟨v, hval⟩

theorem strRef_ok_reach_notin_path (heap : List JNode) :
    ∀ (fuel : Nat) (path : List Nat) (r : Nat) (res : Option SVal),
      strRef heap fuel path (JRef.ptr r) = Except.ok res →
      ∀ j, Relation.ReflTransGen (Edge heap) r j → j ∉ path := by
  intro fuel
  induction fuel with
  | zero => intro path r res h; cases h
  | succ f ih =>
    intro path r res h j hreach
    obtain ⟨hnotin, f', hf', hchild⟩ := strRef_ptr_ok_inv heap (f + 1) path r res h
    have hff : f' = f := by omega
    subst hff
    rcases Relation.ReflTransGen.cases_head hreach with hjr | ⟨m, hedge, hrest⟩
    · rw [← hjr]; exact hnotin
    · obtain ⟨res', hres'⟩ := hchild m hedge
      have := ih (r :: path) m res' hres' j hrest
      intro hj
      exact this (List.mem_cons_of_mem _ hj)

theorem strRef_ok_reach_ok (heap : List JNode) (r j : Nat)
    (hreach : Relation.ReflTransGen (Edge heap) r j) :
    ∀ (fuel : Nat) (path : List Nat) (res : Option SVal),
      strRef heap fuel path (JRef.ptr r) = Except.ok res →
      ∃ fuel' path' res', strRef heap fuel' path' (JRef.ptr j) = Except.ok res' := by
  induction hreach with
  | refl => intro fuel path res h; exact ⟨fuel, path, res, h⟩
  | tail hchain hedge ih =>
    intro fuel path res h
    obtain ⟨fuel', path', res', hmid⟩ := ih fuel path res h
    obtain ⟨-, f', hf', hchild⟩ := strRef_ptr_ok_inv heap fuel' path' _ res' hmid
    obtain ⟨res'', hres''⟩ := hchild _ hedge
    exact ⟨f', _ :: path', res'', hres''⟩

/-- C3 as amended for index.js: whenever the payload contains a cyclic
reference anywhere in its pointer structure, `_sanitize` replaces the
ENTIRE top-level payload with exactly the single sentinel
`\x7b error: "serialization failed" \x7d` — not just the cyclic
subtree.  (The sanitizers of the optimized variants do not share this
behavior; see the counterexample.) -/
theorem sanitize_whole_payload_sentinel_on_cycle (v : JValue) (h : HasCycle v) :
    jsSanitize v = sentinel := by
  obtain ⟨r, i, j, hroot, hreach, hedge, hback⟩ := h
  have hnotnull : ¬ isNullish v.root := by
    rw [hroot]
    simp [isNullish]
  cases hst : strTop v with
  | error e => simp [jsSanitize, sanitizeE, hnotnull, hst]
  | ok res =>
    exfalso
    rw [strTop, hroot] at hst
    obtain ⟨fuel', path', res', hsucc⟩ :=
      strRef_ok_reach_ok v.heap r i hreach _ [] res hst
    obtain ⟨-, f', -, hchild⟩ := strRef_ptr_ok_inv v.heap fuel' path' i res' hsucc
    obtain ⟨res'', hres''⟩ := hchild j hedge
    have hnot := strRef_ok_reach_notin_path v.heap f' (i :: path') j res'' hres'' i hback
    exact hnot (List.mem_cons_self i path')

/-- concrete instance discharging the hypothesis of
`sanitize_whole_payload_sentinel_on_cycle`: the self-referencing test
payload has a cycle and sanitizes to the sentinel -/
theorem sanitize_whole_payload_sentinel_on_cycle_witness :
    HasCycle cycObj ∧ jsSanitize cycObj = sentinel := by
  have hcyc : HasCycle cycObj := by
    refine ⟨0, 0, 0, rfl, Relation.ReflTransGen.refl, ?_, Relation.ReflTransGen.refl⟩
    exact ⟨JNode.jobj [("name".data, JRef.prim (JPrim.jstr "test".data)),
                       ("self".data, JRef.ptr 0)], rfl, by simp [nodeRefs]⟩
  exact ⟨hcyc, sanitize_whole_payload_sentinel_on_cycle cycObj hcyc⟩

/-- a top-level string payload of 1001 units -/
def longStr : JStr := List.replicate 1001 'x'

/-- the 1001-unit string as a whole payload -/
def pLong : JValue := ⟨[], JRef.prim (JPrim.jstr longStr)⟩

/-- a payload with the 1001-unit string nested two objects deep -/
def pNest : JValue :=
  ⟨[JNode.jobj [("a".data, JRef.ptr 1)],
    JNode.jobj [("s".data, JRef.prim (JPrim.jstr longStr))]], JRef.ptr 0⟩

/-- length of a top-level string value, an observation separating
sanitizer outputs -/
def topStrLen : SVal → Nat
  | SVal.jstr s => s.length
  | _ => 0

/-- length of the string nested at depth two in a singleton object of a
singleton object, an observation separating sanitizer outputs -/
def nestedStrLen : SVal → Nat
  | SVal.jobj [(_, SVal.jobj [(_, SVal.jstr s)])] => s.length
  | _ => 0

set_option maxRecDepth 100000 in
/-- C4 counterexample: on the single 1001-unit top-level string
payload, index.js's `_sanitize` truncates (1003 units) while
index-optimized's `_fastSanitize` returns the payload unchanged (1001
units, its early `typeof data !== 'object'` exit skips truncation), so
the variants' sanitizers do not produce the same sanitized value. -/
theorem sanitizers_not_equal_cex :
    topStrLen (jsSanitize pLong) = 1003 ∧
    topStrLen (fastSanitize pLong) = 1001 ∧
    jsSanitize pLong ≠ fastSanitize pLong := by
  refine ⟨by decide, by decide, ?_⟩
  intro h
  have h2 := congrArg topStrLen h
  rw [show topStrLen (jsSanitize pLong) = 1003 by decide,
      show topStrLen (fastSanitize pLong) = 1001 by decide] at h2
  exact absurd h2 (by decide)

set_option maxRecDepth 100000 in
/-- C4 as amended: the three source variants are NOT observationally
equivalent — their sanitizers differ on concrete payloads.
index-optimized does not truncate a top-level long string where
index.js does; index-bit-optimized's shallow copy leaves a long string
nested at depth two untruncated (observing its aliasing output as the
tree it denotes) where index.js truncates it; and on the cyclic test
payload index-optimized keeps the payload with a circular-reference
stub where index.js substitutes the whole-payload sentinel. -/
theorem variants_not_equivalent :
    jsSanitize pLong ≠ fastSanitize pLong ∧
    nestedStrLen (jsSanitize pNest) = 1003 ∧
    nestedStrLen (observe (ultraSanitizeG pNest)) = 1001 ∧
    jsSanitize pNest ≠ observe (ultraSanitizeG pNest) ∧
    fastSanitize cycObj ≠ jsSanitize cycObj := by
  refine ⟨?_, by decide, by decide, ?_, ?_⟩
  · intro h
    have h2 := congrArg topStrLen h
    rw [show topStrLen (jsSanitize pLong) = 1003 by decide,
        show topStrLen (fastSanitize pLong) = 1001 by decide] at h2
    exact absurd h2 (by decide)
  · intro h
    have h2 := congrArg nestedStrLen h
    rw [show nestedStrLen (jsSanitize pNest) = 1003 by decide,
        show nestedStrLen (observe (ultraSanitizeG pNest)) = 1001 by decide] at h2
    exact absurd h2 (by decide)
  · intro h
    have h2 := congrArg topKeys h
    revert h2
    decide
